import Mathlib

/-!
Verification of the webarchive snapshot-resolution pipeline
(src/netlify/functions/archive.js) against its specification.

JavaScript numbers are modelled as exact rationals (ℚ); text lengths are
naturals; machine strings are Lean `String`s.  Fallible operations return
`Option`/`Except`.  The behaviour of the external WHATWG URL library
(`new URL(...)`) is kept abstract as an explicit function parameter where a
definition needs it; everything else is translated from the source.
-/

namespace WebArchive

/-! ### Source-length resolution and extraction-quality scoring
    (archive.js, resolveSourceLength / buildExtractionWarning /
    the quality block of extractFromHtmlCandidate) -/

/-- resolveSourceLength (archive.js lines 255-269).
`sourceBodyLength || 0` is the identity on ℕ. -/
def resolveSourceLength (sourceArticleLength sourceBodyLength : ℕ) : ℕ :=
  let base := if 0 < sourceArticleLength then sourceArticleLength else sourceBodyLength
  if 0 < sourceArticleLength ∧ 0 < sourceBodyLength ∧ 5000 ≤ sourceBodyLength ∧
      (sourceArticleLength : ℚ) * 1.9 < (sourceBodyLength : ℚ) then
    sourceBodyLength
  else base

/-- JS `Number(x.toFixed(3))`, idealized on exact rationals
(round half away from zero to three decimals; inputs here are nonnegative). -/
def jsToFixed3 (q : ℚ) : ℚ := (⌊q * 1000 + 1/2⌋ : ℚ) / 1000

/-- The warning object produced by buildExtractionWarning. -/
structure ExtractionWarning where
  kind : String
  message : String
  coverage : ℚ
  extractedTextLength : ℕ
  sourceTextLength : ℕ
deriving Repr, DecidableEq

/-- buildExtractionWarning (archive.js lines 227-253).
`!extractedTextLength || !sourceLength` is the `= 0` test on naturals. -/
def buildExtractionWarning
    (extractedTextLength sourceArticleLength sourceBodyLength : ℕ) :
    Option ExtractionWarning :=
  let sourceLength := resolveSourceLength sourceArticleLength sourceBodyLength
  if extractedTextLength = 0 ∨ sourceLength = 0 then none
  else
    let coverage : ℚ := (extractedTextLength : ℚ) / (sourceLength : ℚ)
    let missingChars : ℤ := (sourceLength : ℤ) - (extractedTextLength : ℤ)
    if 3500 ≤ sourceLength ∧ 800 ≤ extractedTextLength ∧
        coverage < 0.58 ∧ 1800 < missingChars then
      some
        { kind := "possibly_incomplete"
          message := "This clean view may be incomplete. Compare with the Wayback snapshot link for the full page."
          coverage := jsToFixed3 coverage
          extractedTextLength := extractedTextLength
          sourceTextLength := sourceLength }
    else none

/-- The `_quality` record attached to every extraction result. -/
structure ExtractionQuality where
  hasWarning : Bool
  extractedTextLength : ℕ
  coverage : ℚ
  sourceTextLength : ℕ
deriving Repr, DecidableEq

/-- The quality block computed at the end of extractFromHtmlCandidate
(archive.js lines 1216-1240).  The three text lengths are produced by DOM
measurement earlier in the function and enter here as parameters. -/
def extractFromHtmlCandidateQuality
    (extractedTextLength sourceArticleLength sourceBodyLength : ℕ) :
    ExtractionQuality :=
  let sourceTextLength := resolveSourceLength sourceArticleLength sourceBodyLength
  let coverage : ℚ :=
    if 0 < sourceTextLength then (extractedTextLength : ℚ) / (sourceTextLength : ℚ) else 0
  let extractionWarning :=
    buildExtractionWarning extractedTextLength sourceArticleLength sourceBodyLength
  { hasWarning := extractionWarning.isSome
    extractedTextLength := extractedTextLength
    coverage := coverage
    sourceTextLength := sourceTextLength }

/-! ### String helpers shared by several embedded functions.
    JS strings are Lean `String`s; the character-level operations below are
    written over `List Char` so that they evaluate by kernel reduction. -/

/-- JS `haystack.includes(needle)` on the character list of a string. -/
def jsIncludesChars (needle : List Char) : List Char → Bool
  | [] => needle.isEmpty
  | c :: rest => needle.isPrefixOf (c :: rest) || jsIncludesChars needle rest

/-- JS `haystack.includes(needle)`. -/
def jsIncludes (haystack needle : String) : Bool :=
  jsIncludesChars needle.data haystack.data

/-- JS `toLowerCase()`, idealized to ASCII case folding (the substrings the
code searches for are all ASCII). -/
def jsToLowerCase (s : String) : String := String.mk (s.data.map Char.toLower)

/-- JS `s.startsWith(p)`. -/
def jsStartsWith (s p : String) : Bool := p.data.isPrefixOf s.data

/-- JS `s.endsWith(p)`. -/
def jsEndsWith (s p : String) : Bool := p.data.reverse.isPrefixOf s.data.reverse

/-! ### Save-failure classification (archive.js lines 1119-1146) -/

/-- The `{ category, label }` pair produced by classifySaveFailure. -/
structure SaveFailure where
  category : String
  label : String
deriving Repr, DecidableEq

/-- classifySaveFailure (archive.js lines 1119-1146).  `detail || ""` is the
identity on the String model; `status` is an HTTP status code. -/
def classifySaveFailure (status : ℤ) (detail : String) : SaveFailure :=
  let lower := jsToLowerCase detail
  if jsIncludes lower "robots.txt" then ⟨"robots", "Blocked by robots.txt"⟩
  else if jsIncludes lower "access is forbidden" || status = 403 then
    ⟨"forbidden", "Access forbidden"⟩
  else if jsIncludes lower "unavailable for archiving" ||
      jsIncludes lower "cannot be archived" then
    ⟨"blocked", "Unavailable for archiving"⟩
  else if jsIncludes lower "rate limit" || status = 429 then
    ⟨"rate_limited", "Wayback rate limit"⟩
  else if status = 401 then ⟨"unauthorized", "Unauthorized"⟩
  else if status = 404 then ⟨"not_found", "Not found"⟩
  else if 500 ≤ status then ⟨"service_error", "Wayback service error"⟩
  else if jsIncludes lower "blocked" then ⟨"blocked", "Unavailable for archiving"⟩
  else ⟨"unknown", "Unavailable for archiving"⟩

/-! ### Archive URL building and stripping
    (archive.js, stripWaybackPrefix lines 510-513, normalizeArchiveTargetUrl
    lines 515-522, buildArchiveUrl lines 524-540).

    The regex `^https?:\/\/web\.archive\.org\/web\/\d{14}[a-z]{0,2}_?\//` and
    the unanchored search `/\/web\/(\d{14})([a-z]{2}_)?\//` are compiled by
    hand into character-list matchers.  Greedy matching with backtracking is
    equivalent to committed greedy matching here because an optional letter
    group can never be re-read as `_` or `/`. -/

/-- Drop an exact literal prefix, or fail. -/
def dropLiteral : List Char → List Char → Option (List Char)
  | [], cs => some cs
  | _ :: _, [] => none
  | l :: ls, c :: cs => if c = l then dropLiteral ls cs else none

/-- Drop exactly `n` decimal digits, or fail (regex `\d{n}`). -/
def dropDigits : ℕ → List Char → Option (List Char)
  | 0, cs => some cs
  | _ + 1, [] => none
  | n + 1, c :: cs => if c.isDigit then dropDigits n cs else none

/-- Take exactly `n` decimal digits, or fail, returning them and the rest. -/
def takeDigits : ℕ → List Char → Option (List Char × List Char)
  | 0, cs => some ([], cs)
  | _ + 1, [] => none
  | n + 1, c :: cs =>
    if c.isDigit then
      (takeDigits n cs).map (fun p => (c :: p.1, p.2))
    else none

/-- Regex tail `[a-z]{0,2}` (greedy): drop up to two lowercase letters. -/
def dropAtMostTwoLower : List Char → List Char
  | [] => []
  | c :: rest =>
    if c.isLower then
      match rest with
      | [] => []
      | d :: rest2 => if d.isLower then rest2 else rest
    else c :: rest

/-- Regex tail `_?\/` (greedy on the optional underscore). -/
def dropUnderscoreSlash : List Char → Option (List Char)
  | '_' :: '/' :: rest => some rest
  | '/' :: rest => some rest
  | _ => none

/-- Anchored match of `^https?:\/\/web\.archive\.org\/web\/\d{14}[a-z]{0,2}_?\//`;
returns the remainder after the matched prefix.  `https?` is expanded into
the two whole-prefix alternatives, tried with the `s` first exactly as the
greedy regex does (the alternatives exclude each other, since `s` differs
from `:`, so this is the regex's backtracking behaviour verbatim). -/
def waybackMatchRemainder (cs : List Char) : Option (List Char) :=
  let afterScheme : Option (List Char) :=
    match dropLiteral "https://web.archive.org/web/".data cs with
    | some r => some r
    | none => dropLiteral "http://web.archive.org/web/".data cs
  afterScheme.bind fun cs3 =>
    (dropDigits 14 cs3).bind fun cs4 =>
      dropUnderscoreSlash (dropAtMostTwoLower cs4)

/-- stripWaybackPrefix (archive.js lines 510-513).  `!url` is the empty-string
test; `url.replace(re, "")` with an anchored regex removes the matched prefix
when it matches and returns the string unchanged otherwise. -/
def stripWaybackPrefix (url : String) : String :=
  if url = "" then ""
  else
    match waybackMatchRemainder url.data with
    | some rest => String.mk rest
    | none => url

/-- One unanchored match of `/\/web\/(\d{14})([a-z]{2}_)?\//`:
`timestampDigits` is capture group 1, `modGroup` capture group 2
(`none` when the optional group did not participate), `after` the text
following the match.  Tried at the head position only. -/
def webTsMatchAt (cs : List Char) : Option (List Char × Option (List Char) × List Char) :=
  (dropLiteral "/web/".data cs).bind fun c1 =>
    (takeDigits 14 c1).bind fun p =>
      match p.2 with
      | a :: b :: '_' :: '/' :: rest =>
        if a.isLower && b.isLower then some (p.1, some [a, b, '_'], rest)
        else match p.2 with
          | '/' :: rest2 => some (p.1, none, rest2)
          | _ => none
      | '/' :: rest2 => some (p.1, none, rest2)
      | _ => none

/-- Leftmost unanchored match of `/\/web\/(\d{14})([a-z]{2}_)?\//` over the
whole string: returns `(textBeforeMatch, group1, group2, textAfterMatch)`. -/
def webTsSearch : List Char → Option (List Char × List Char × Option (List Char) × List Char)
  | [] => none
  | c :: rest =>
    match webTsMatchAt (c :: rest) with
    | some (ts, modGroup, after) => some ([], ts, modGroup, after)
    | none =>
      (webTsSearch rest).map fun r => (c :: r.1, r.2.1, r.2.2.1, r.2.2.2)

/-- JS truthiness of an optional string (`null`/`undefined`/`""` are falsy). -/
def jsTruthyOptStr : Option String → Bool
  | none => false
  | some s => s ≠ ""

/-- The `${modifier}_` suffix used when the modifier is truthy. -/
def modifierSuffix : Option String → String
  | none => ""
  | some m => if m = "" then "" else m ++ "_"

/-- ARCHIVE_ORIGIN (archive.js line 5). -/
def ARCHIVE_ORIGIN : String := "https://web.archive.org"

/-- normalizeArchiveTargetUrl (archive.js lines 515-522).  The external
WHATWG library calls are parameters: `urlToString value` models
`new URL(value).toString()` (`none` = the constructor threw) and `encodeURI`
models the JS builtin. -/
def normalizeArchiveTargetUrl (urlToString : String → Option String)
    (encodeURI : String → String) (value : String) : String :=
  if value = "" then ""
  else
    match urlToString value with
    | some s => s
    | none => encodeURI value

/-- buildArchiveUrl (archive.js lines 524-540), parametrized by the
`normalize` function (an instantiation of `normalizeArchiveTargetUrl`,
whose URL-library core is external).  An absent timestamp is the empty
string (JS `null`/`undefined`/`""` are all falsy). -/
def buildArchiveUrl (normalize : String → String)
    (absoluteUrl timestamp : String) (modifier : Option String) : String :=
  if timestamp = "" then absoluteUrl
  else if jsStartsWith absoluteUrl (ARCHIVE_ORIGIN ++ "/web/") then
    if jsTruthyOptStr modifier = false then absoluteUrl
    else
      match webTsSearch absoluteUrl.data, modifier with
      | none, _ => absoluteUrl
      | some _, none => absoluteUrl
      | some (before, ts, modGroup, after), some m =>
        if modGroup = some (m ++ "_").data then absoluteUrl
        else String.mk (before ++ ("/web/").data ++ ts ++ (m ++ "_/").data ++ after)
  else
    ARCHIVE_ORIGIN ++ "/web/" ++ timestamp ++ modifierSuffix modifier ++ "/" ++
      normalize absoluteUrl

/-! ### Extraction comparison and selection
    (archive.js, compareExtractionQuality lines 1243-1271,
    chooseBestExtraction lines 1273-1279) -/

/-- An extraction result as consumed by the comparator: only the `_quality`
record participates in comparison; the content payload is carried along
unused (represented by its title and cleaned HTML). -/
structure Extraction where
  title : String
  contentHtml : String
  quality : ExtractionQuality
deriving Repr, DecidableEq

/-- compareExtractionQuality (archive.js lines 1243-1271).  A JS `null`
argument is `none`.  Every extraction produced by the pipeline carries a
`_quality` record, so the `?.` / `|| 0` guards are the plain field reads
here.  The numeric result (only its sign is ever consumed) is an exact
rational; `lengthRatio` is `Infinity` when `minLength = 0 < maxLength` and
`1` when both lengths are `0`, and is only used in the `>= 1.25` test. -/
def compareExtractionQuality : Option Extraction → Option Extraction → ℚ
  | none, none => 0
  | none, some _ => 1
  | some _, none => -1
  | some l, some r =>
    let leftLength := l.quality.extractedTextLength
    let rightLength := r.quality.extractedTextLength
    let maxLength := max leftLength rightLength
    let minLength := min leftLength rightLength
    let ratioAtLeast : Bool :=
      if 0 < minLength then decide ((1.25 : ℚ) ≤ (maxLength : ℚ) / (minLength : ℚ))
      else decide (0 < maxLength)
    let lengthDelta := maxLength - minLength
    if ratioAtLeast = true ∧ 1200 ≤ lengthDelta then
      (rightLength : ℚ) - (leftLength : ℚ)
    else if l.quality.hasWarning ≠ r.quality.hasWarning then
      (if l.quality.hasWarning then 1 else 0) - (if r.quality.hasWarning then 1 else 0)
    else if leftLength ≠ rightLength then
      (rightLength : ℚ) - (leftLength : ℚ)
    else if l.quality.coverage ≠ r.quality.coverage then
      r.quality.coverage - l.quality.coverage
    else 0

/-- One step of the `reduce` inside chooseBestExtraction. -/
def chooseBestStep (best candidate : Option Extraction) : Option Extraction :=
  if best = none then candidate
  else if compareExtractionQuality candidate best < 0 then candidate
  else best

/-- chooseBestExtraction (archive.js lines 1273-1279).  A non-array input is
`none`; array elements may themselves be JS `null`. -/
def chooseBestExtraction : Option (List (Option Extraction)) → Option Extraction
  | none => none
  | some results =>
    if results.length = 0 then none
    else results.foldl chooseBestStep none

/-! ### Deadline-aware fetch
    (archive.js, deadlineRemainingMs lines 46-53, fetchWithDeadline
    lines 55-85) -/

/-- How the wrapped network call behaves once issued: it resolves, is
aborted by the armed timer (`AbortError`), or rejects with some other
error (carried and rethrown unchanged). -/
inductive FetchOutcome
  | success
  | aborted
  | failed (message : String)
deriving Repr, DecidableEq

/-- The observable behaviour of one fetchWithDeadline call: whether the
network request was issued at all, the timeout actually armed (ms), and the
result, with errors identified by their `code` (or message for rethrown
foreign errors). -/
inductive FetchResult
  | ok
  | error (code : String)
deriving Repr, DecidableEq

structure FetchTrace where
  requested : Bool
  armedTimeoutMs : Option ℤ
  result : FetchResult
deriving Repr, DecidableEq

/-- deadlineRemainingMs (archive.js lines 46-49): `none` encodes the JS
`Infinity` returned when no deadline is set (`!deadlineMs`, i.e. `0` here). -/
def deadlineRemainingMs (now deadlineMs : ℤ) : Option ℤ :=
  if deadlineMs = 0 then none else some (deadlineMs - now)

/-- fetchWithDeadline (archive.js lines 55-85) as a function of the clock
reading, the options, and the underlying fetch outcome.  `remaining = none`
encodes `Infinity`, for which `remaining <= 0` is false and
`min timeoutMs remaining = timeoutMs`. -/
def fetchWithDeadline (now deadlineMs timeoutMs reserveMs : ℤ)
    (outcome : FetchOutcome) : FetchTrace :=
  let remaining := (deadlineRemainingMs now deadlineMs).map (fun r => r - reserveMs)
  let run : ℤ → FetchTrace := fun safeTimeoutMs =>
    { requested := true
      armedTimeoutMs := some safeTimeoutMs
      result :=
        match outcome with
        | .success => .ok
        | .aborted => .error "FETCH_TIMEOUT"
        | .failed message => .error message }
  match remaining with
  | none => run (max 250 timeoutMs)
  | some r =>
    if r ≤ 0 then
      { requested := false, armedTimeoutMs := none, result := .error "DEADLINE_EXCEEDED" }
    else run (max 250 (min timeoutMs r))

/-! ### Target URL variants
    (archive.js, isLikelyIpHost lines 1346-1351, canToggleWww lines 1353-1358,
    toggleWwwForUrl lines 1360-1371, toggleTrailingSlashForUrl lines 1373-1384,
    buildTargetUrlVariants lines 1386-1404).

    The two toggles go through the external WHATWG URL library; its behaviour
    is abstracted as a record of operations `UrlOps` over some parsed-URL
    type, while the host- and path-level logic is translated from the
    source. -/

/-- External URL-library interface used by the variant generator: parsing
(`none` = the constructor threw), serialization, and the accessors and
setters used by the source. -/
structure UrlOps (υ : Type) where
  parse : String → Option υ
  render : υ → String
  hostname : υ → String
  pathname : υ → String
  setHostname : υ → String → υ
  setPathname : υ → String → υ

/-- Regex `^\d{1,3}(?:\.\d{1,3}){3}$`: four dot-separated groups of one to
three decimal digits. -/
def ipv4Like (s : String) : Bool :=
  let isGroup : List Char → Bool := fun g =>
    decide (1 ≤ g.length) && decide (g.length ≤ 3) && g.all Char.isDigit
  match (s.data.splitOn '.') with
  | [a, b, c, d] => isGroup a && isGroup b && isGroup c && isGroup d
  | _ => false

/-- isLikelyIpHost (archive.js lines 1346-1351). -/
def isLikelyIpHost (hostname : String) : Bool :=
  if hostname = "" then false
  else if ipv4Like hostname then true
  else hostname.data.contains ':'

/-- canToggleWww (archive.js lines 1353-1358). -/
def canToggleWww (hostname : String) : Bool :=
  if hostname = "" then false
  else if hostname = "localhost" || jsEndsWith hostname ".localhost" then false
  else if isLikelyIpHost hostname then false
  else hostname.data.contains '.'

/-- toggleWwwForUrl (archive.js lines 1360-1371). -/
def toggleWwwForUrl {υ : Type} (M : UrlOps υ) (url : String) : Option String :=
  match M.parse url with
  | none => none
  | some parsed =>
    if canToggleWww (M.hostname parsed) = false then none
    else
      let h := M.hostname parsed
      let h2 := if jsStartsWith h "www." then String.mk (h.data.drop 4)
        else "www." ++ h
      some (M.render (M.setHostname parsed h2))

/-- toggleTrailingSlashForUrl (archive.js lines 1373-1384).
`pathname.slice(0, -1) || "/"` drops the last character and falls back to
`"/"` when the remainder is empty. -/
def toggleTrailingSlashForUrl {υ : Type} (M : UrlOps υ) (url : String) : Option String :=
  match M.parse url with
  | none => none
  | some parsed =>
    let path := M.pathname parsed
    if path = "/" then none
    else
      let p2 :=
        if jsEndsWith path "/" then
          let t := String.mk path.data.dropLast
          if t = "" then "/" else t
        else path ++ "/"
      some (M.render (M.setPathname parsed p2))

/-- The dedup-and-drop-falsy loop at the end of buildTargetUrlVariants:
skip `null` and `""` candidates and every candidate already seen, keeping
first occurrences in order. -/
def dedupKeepFirst (seen : List String) : List (Option String) → List String
  | [] => []
  | none :: rest => dedupKeepFirst seen rest
  | some s :: rest =>
    if s = "" ∨ s ∈ seen then dedupKeepFirst seen rest
    else s :: dedupKeepFirst (s :: seen) rest

/-- The five candidates of buildTargetUrlVariants in source order:
the original, the trailing-slash toggle, the www toggle, and the two
compositions (each guarded by JS truthiness of its base candidate). -/
def targetUrlCandidates {υ : Type} (M : UrlOps υ) (targetUrl : String) :
    List (Option String) :=
  let c1 := toggleTrailingSlashForUrl M targetUrl
  let c2 := toggleWwwForUrl M targetUrl
  let c3 := match c1 with
    | some s => if s = "" then none else toggleWwwForUrl M s
    | none => none
  let c4 := match c2 with
    | some s => if s = "" then none else toggleTrailingSlashForUrl M s
    | none => none
  [some targetUrl, c1, c2, c3, c4]

/-- buildTargetUrlVariants (archive.js lines 1386-1404). -/
def buildTargetUrlVariants {υ : Type} (M : UrlOps υ) (targetUrl : String) :
    List String :=
  dedupKeepFirst [] (targetUrlCandidates M targetUrl)

/-- The www-toggle omission condition as the claim words it: the host is an
IP literal, contains a colon, or is `localhost`.  (Stated from the claim for
comparison with `canToggleWww`; the code's condition is wider.) -/
def wwwToggleOmittedPerClaim (hostname : String) : Bool :=
  ipv4Like hostname || hostname.data.contains ':' || hostname = "localhost"

/-- A minimal concrete instantiation of the URL library for
`scheme://host/path` URLs without userinfo, port, query or fragment, on
which it agrees with the WHATWG behaviour.  Used to exercise
buildTargetUrlVariants on concrete inputs. -/
structure SimpleUrl where
  scheme : String
  host : String
  path : String
deriving Repr, DecidableEq

/-- Parse `http://host/path` or `https://host/path` (path defaulting to `/`). -/
def simpleParse (s : String) : Option SimpleUrl :=
  let parseAfter : String → List Char → Option SimpleUrl := fun scheme rest =>
    let host := rest.takeWhile (fun c => c ≠ '/')
    let path := rest.dropWhile (fun c => c ≠ '/')
    if host.isEmpty then none
    else some ⟨scheme, String.mk host, if path.isEmpty then "/" else String.mk path⟩
  if jsStartsWith s "http://" then parseAfter "http" (s.data.drop 7)
  else if jsStartsWith s "https://" then parseAfter "https" (s.data.drop 8)
  else none

/-- The `UrlOps` instance backed by `SimpleUrl`. -/
def simpleUrlOps : UrlOps SimpleUrl where
  parse := simpleParse
  render := fun u => u.scheme ++ "://" ++ u.host ++ u.path
  hostname := fun u => u.host
  pathname := fun u => u.path
  setHostname := fun u h => { u with host := h }
  setPathname := fun u p => { u with path := p }

/-! ### Historical-index lookup
    (archive.js, lookupCdxSnapshots lines 1054-1097) -/

/-- JSON values as parsed by `response.json()`. -/
inductive Json
  | null
  | bool (b : Bool)
  | num (q : ℚ)
  | str (s : String)
  | arr (elements : List Json)
  | obj (fields : List (String × Json))
deriving Repr

/-- JS truthiness of a JSON value (objects and arrays are always truthy). -/
def Json.truthy : Json → Bool
  | .null => false
  | .bool b => b
  | .num q => q ≠ 0
  | .str s => s ≠ ""
  | .arr _ => true
  | .obj _ => true

/-- String interpolation `${v}` of a JSON value, idealized for non-string
scalars (real CDX rows contain only strings; integral numbers render via
their integer numerator). -/
def Json.render : Json → String
  | .null => "null"
  | .bool b => if b then "true" else "false"
  | .num q => toString q.num
  | .str s => s
  | .arr _ => ""
  | .obj _ => "[object Object]"

/-- JS `row?.[i]`: `none` is `undefined`.  Arrays index positionally,
strings yield one-character strings, objects look up the decimal key. -/
def jsonIndex : Json → ℕ → Option Json
  | .arr elements, i => elements.get? i
  | .str s, i => (s.data.get? i).map (fun c => Json.str (String.mk [c]))
  | .obj fields, i => (fields.lookup (toString i))
  | _, _ => none

/-- JS truthiness of a possibly-`undefined` JSON value. -/
def jsonTruthy? : Option Json → Bool
  | none => false
  | some v => v.truthy

/-- A snapshot entry `{ url, timestamp, original }` pushed by
lookupCdxSnapshots. -/
structure Snapshot where
  url : String
  timestamp : String
  original : String
deriving Repr, DecidableEq

/-- The upstream behaviour seen by lookupCdxSnapshots: the fetch itself may
throw; otherwise the response has an `ok` flag and `response.json()` either
throws (malformed body) or yields a JSON value. -/
inductive CdxUpstream
  | netThrow
  | resp (ok : Bool) (body : Except Unit Json)
deriving Repr

/-- `Math.max(1, Math.min(Number(limit) || 5, 8))` (archive.js line 1055).
`none` models a `limit` whose `Number(...)` conversion is `NaN` (falsy, like
`0`, so the default `5` applies). -/
def cdxSafeLimit (limit : Option ℚ) : ℚ :=
  let n : ℚ := match limit with
    | none => 5
    | some q => if q = 0 then 5 else q
  max 1 (min n 8)

/-- The `forEach` row loop of lookupCdxSnapshots, with the seen-key set and
accumulator threaded through.  A row whose resolved `original` is not a
string makes `buildArchiveUrl` throw a TypeError in JS (`.startsWith` on a
non-string); that is the `.error` outcome, caught by the enclosing `try`. -/
def processCdxRows (normalize : String → String) (targetUrl : String) :
    List Json → List String → List Snapshot → Except Unit (List Snapshot)
  | [], _, acc => .ok acc.reverse
  | row :: rest, seen, acc =>
    let timestamp := jsonIndex row 0
    let original : Json := match jsonIndex row 1 with
      | some v => if v.truthy then v else Json.str targetUrl
      | none => Json.str targetUrl
    if jsonTruthy? timestamp = false then processCdxRows normalize targetUrl rest seen acc
    else
      let tsRendered := match timestamp with
        | some v => Json.render v
        | none => "undefined"
      let key := tsRendered ++ "|" ++ Json.render original
      if key ∈ seen then processCdxRows normalize targetUrl rest seen acc
      else
        match original with
        | .str originalStr =>
          processCdxRows normalize targetUrl rest (key :: seen)
            ({ url := buildArchiveUrl normalize originalStr tsRendered none
               timestamp := tsRendered
               original := originalStr } :: acc)
        | _ => .error ()

/-- The request URL built on archive.js lines 1056-1058, carrying the
clamped limit; `encodeURIComponent` is the external JS builtin. -/
def cdxRequestUrl (encodeURIComponent : String → String) (targetUrl : String)
    (limit : Option ℚ) : String :=
  "https://web.archive.org/cdx/search/cdx?url=" ++ encodeURIComponent targetUrl ++
    "&output=json&fl=timestamp,original,statuscode&filter=statuscode:200&limit=" ++
    Json.render (.num (cdxSafeLimit limit)) ++ "&sort=descending"

/-- lookupCdxSnapshots (archive.js lines 1054-1097).  The clamped limit is
interpolated into the request URL (see `cdxRequestUrl`); the response to that
request enters as `upstream`.  Every failure path (network throw,
non-2xx response, malformed JSON, non-array payload, fewer than two rows, or
a TypeError while building a row) returns the empty list via the
`try`/`catch`. -/
def lookupCdxSnapshots (normalize : String → String) (targetUrl : String)
    (upstream : CdxUpstream) : List Snapshot :=
  match upstream with
  | .netThrow => []
  | .resp ok body =>
    if ok = false then []
    else
      match body with
      | .error _ => []
      | .ok data =>
        match data with
        | .arr rows =>
          if rows.length < 2 then []
          else
            match processCdxRows normalize targetUrl (rows.drop 1) [] [] with
            | .ok snapshots => snapshots
            | .error _ => []
        | _ => []

/-- Length dominance: `x` exceeds `y` by the ratio (`>= 1.25`, i.e.
`5*y <= 4*x`, which also absorbs the `Infinity` ratio of `y = 0 < x`) and by
the absolute delta (`>= 1200`) that make compareExtractionQuality prefer the
longer extraction outright. -/
def DomLen (x y : ℕ) : Prop := 5 * y ≤ 4 * x ∧ y + 1200 ≤ x

instance : ∀ x y, Decidable (DomLen x y) := fun _ _ => instDecidableAnd

/-- The at-least-as-good relation induced by compareExtractionQuality on
non-null extractions, spelled out on the quality fields (length, warning
flag, coverage): the longer side wins outright under length dominance;
otherwise no warning beats a warning, then longer text wins, then higher
coverage, with equal fields tying. -/
def qualityLE (a : ℕ) (wa : Bool) (ca : ℚ) (b : ℕ) (wb : Bool) (cb : ℚ) : Prop :=
  DomLen a b ∨ (¬ DomLen a b ∧ ¬ DomLen b a ∧
    ((wa = false ∧ wb = true) ∨ (wa = wb ∧ b < a) ∨ (wa = wb ∧ a = b ∧ cb ≤ ca)))

/-!
## Theorems

Helper lemmas first, then one theorem per claim (with witnesses for the
theorems that carry hypotheses).
-/

/-! ### Claim C6: resolveSourceLength -/

theorem resolveSourceLength_override (a b : ℕ) (ha : 0 < a) (h5 : 5000 ≤ b)
    (h19 : (a : ℚ) * 1.9 < (b : ℚ)) : resolveSourceLength a b = b := by
  have hb : 0 < b := by omega
  simp only [resolveSourceLength]
  rw [if_pos ⟨ha, hb, h5, h19⟩]

theorem resolveSourceLength_article (a b : ℕ) (ha : 0 < a)
    (h : ¬(5000 ≤ b ∧ (a : ℚ) * 1.9 < (b : ℚ))) : resolveSourceLength a b = a := by
  simp only [resolveSourceLength]
  rw [if_neg (fun hc => h ⟨hc.2.2.1, hc.2.2.2⟩), if_pos ha]

theorem resolveSourceLength_body (a b : ℕ) (ha : a = 0) :
    resolveSourceLength a b = b := by
  subst ha
  simp [resolveSourceLength]

/-- C6: resolveSourceLength equals the body length exactly when the article
length is positive, the body length is at least 5000 and exceeds 1.9 times
the article length; it equals the article length otherwise when the article
length is positive; and it equals the body length when the article length is
zero. -/
theorem C6_resolveSourceLength_spec (a b : ℕ) :
    (0 < a → 5000 ≤ b → (a : ℚ) * 1.9 < (b : ℚ) → resolveSourceLength a b = b) ∧
    (0 < a → ¬(5000 ≤ b ∧ (a : ℚ) * 1.9 < (b : ℚ)) → resolveSourceLength a b = a) ∧
    (a = 0 → resolveSourceLength a b = b) :=
  ⟨fun ha h5 h19 => resolveSourceLength_override a b ha h5 h19,
   fun ha h => resolveSourceLength_article a b ha h,
   fun ha => resolveSourceLength_body a b ha⟩

/-- Witness for C6 at concrete lengths: 3000/6000 switches to the body
(6000 ≥ 5000 and 6000 > 1.9·3000), 3000/5600 keeps the article, 0/777 falls
back to the body. -/
theorem C6_resolveSourceLength_spec_witness :
    resolveSourceLength 3000 6000 = 6000 ∧ resolveSourceLength 3000 5600 = 3000 ∧
    resolveSourceLength 0 777 = 777 :=
  ⟨(C6_resolveSourceLength_spec 3000 6000).1 (by norm_num) (by norm_num) (by norm_num),
   (C6_resolveSourceLength_spec 3000 5600).2.1 (by norm_num)
     (by intro h; exact absurd h.2 (by norm_num)),
   (C6_resolveSourceLength_spec 0 777).2.2 rfl⟩

/-! ### Claim C1: the quality block of extractFromHtmlCandidate -/

theorem quality_sourceTextLength (e a b : ℕ) :
    (extractFromHtmlCandidateQuality e a b).sourceTextLength = resolveSourceLength a b := rfl

theorem quality_coverage (e a b : ℕ) :
    (extractFromHtmlCandidateQuality e a b).coverage =
      if 0 < resolveSourceLength a b then (e : ℚ) / (resolveSourceLength a b : ℚ)
      else 0 := rfl

theorem quality_hasWarning (e a b : ℕ) :
    (extractFromHtmlCandidateQuality e a b).hasWarning =
      (buildExtractionWarning e a b).isSome := rfl

theorem buildExtractionWarning_isSome (e a b : ℕ)
    (h : (buildExtractionWarning e a b).isSome = true) :
    3500 ≤ resolveSourceLength a b ∧ 800 ≤ e ∧
      (e : ℚ) / (resolveSourceLength a b : ℚ) < 0.58 ∧
      1800 < (resolveSourceLength a b : ℤ) - (e : ℤ) := by
  by_cases h0 : e = 0 ∨ resolveSourceLength a b = 0
  · rw [buildExtractionWarning, if_pos h0] at h
    exact absurd h (by simp)
  · by_cases hc : 3500 ≤ resolveSourceLength a b ∧ 800 ≤ e ∧
        (e : ℚ) / (resolveSourceLength a b : ℚ) < 0.58 ∧
        1800 < (resolveSourceLength a b : ℤ) - (e : ℤ)
    · exact hc
    · rw [buildExtractionWarning, if_neg h0] at h
      simp only [if_neg hc] at h
      exact absurd h (by simp)

/-- C1: in every quality record produced by extractFromHtmlCandidate,
coverage is extracted/source when the source length is positive and 0 when
it is zero, and the possibly-incomplete warning flag entails source ≥ 3500,
extracted ≥ 800, coverage < 0.58 and a gap above 1800 — in particular both
lengths are nonzero whenever the warning is present. -/
theorem C1_extractQuality_spec (e a b : ℕ) :
    (0 < (extractFromHtmlCandidateQuality e a b).sourceTextLength →
      (extractFromHtmlCandidateQuality e a b).coverage =
        (e : ℚ) / ((extractFromHtmlCandidateQuality e a b).sourceTextLength : ℚ)) ∧
    ((extractFromHtmlCandidateQuality e a b).sourceTextLength = 0 →
      (extractFromHtmlCandidateQuality e a b).coverage = 0) ∧
    ((extractFromHtmlCandidateQuality e a b).hasWarning = true →
      3500 ≤ (extractFromHtmlCandidateQuality e a b).sourceTextLength ∧
      800 ≤ e ∧
      (extractFromHtmlCandidateQuality e a b).coverage < 0.58 ∧
      1800 < ((extractFromHtmlCandidateQuality e a b).sourceTextLength : ℤ) - (e : ℤ) ∧
      e ≠ 0 ∧ (extractFromHtmlCandidateQuality e a b).sourceTextLength ≠ 0) := by
  refine ⟨fun h => ?_, fun h => ?_, fun h => ?_⟩
  · rw [quality_coverage, quality_sourceTextLength]
    rw [quality_sourceTextLength] at h
    rw [if_pos h]
  · rw [quality_coverage]
    rw [quality_sourceTextLength] at h
    rw [h]
    simp
  · rw [quality_hasWarning] at h
    obtain ⟨h1, h2, h3, h4⟩ := buildExtractionWarning_isSome e a b h
    have hs : 0 < resolveSourceLength a b := by omega
    refine ⟨by rw [quality_sourceTextLength]; exact h1, h2, ?_, ?_, by omega, ?_⟩
    · rw [quality_coverage, if_pos hs]
      exact h3
    · rw [quality_sourceTextLength]
      exact h4
    · rw [quality_sourceTextLength]
      omega

/-- Witness for C1 at extracted 1000 against a 4000-character article: the
warning fires and every stated bound holds. -/
theorem C1_extractQuality_spec_witness :
    (extractFromHtmlCandidateQuality 1000 4000 0).coverage =
      (1000 : ℚ) / ((extractFromHtmlCandidateQuality 1000 4000 0).sourceTextLength : ℚ) ∧
    3500 ≤ (extractFromHtmlCandidateQuality 1000 4000 0).sourceTextLength ∧
    (extractFromHtmlCandidateQuality 1000 4000 0).coverage < 0.58 :=
  ⟨(C1_extractQuality_spec 1000 4000 0).1 (by norm_num [quality_sourceTextLength, resolveSourceLength]),
   ((C1_extractQuality_spec 1000 4000 0).2.2 (by norm_num [quality_hasWarning,
      buildExtractionWarning, resolveSourceLength])).1,
   ((C1_extractQuality_spec 1000 4000 0).2.2 (by norm_num [quality_hasWarning,
      buildExtractionWarning, resolveSourceLength])).2.2.1⟩

/-! ### Claim C8: robots.txt classification -/

/-- C8: whenever the lower-cased failure detail contains "robots.txt",
classifySaveFailure returns category "robots" with label "Blocked by
robots.txt", whatever the HTTP status and whatever else the detail says. -/
theorem C8_classify_robots (status : ℤ) (detail : String)
    (h : jsIncludes (jsToLowerCase detail) "robots.txt" = true) :
    classifySaveFailure status detail = ⟨"robots", "Blocked by robots.txt"⟩ := by
  simp only [classifySaveFailure]
  rw [if_pos h]

/-- Witness for C8: a 200 status with mixed-case detail text still classifies
as a robots block. -/
theorem C8_classify_robots_witness :
    classifySaveFailure 200 "Page blocked, see roBOTS.tXt for details" =
      ⟨"robots", "Blocked by robots.txt"⟩ :=
  C8_classify_robots 200 "Page blocked, see roBOTS.tXt for details" (by decide)

/-! ### Claim C10: buildArchiveUrl without a timestamp -/

/-- C10: with an absent timestamp (JS null/undefined/empty string, the empty
string in this model) buildArchiveUrl returns its input unchanged, for every
URL, every modifier and every behaviour of the external URL normalizer. -/
theorem C10_buildArchiveUrl_no_timestamp (normalize : String → String)
    (absoluteUrl : String) (modifier : Option String) :
    buildArchiveUrl normalize absoluteUrl "" modifier = absoluteUrl := by
  simp [buildArchiveUrl]

/-! ### Claim C4: fetchWithDeadline -/

/-- C4: with a deadline set, when `deadline - now - reserve <= 0` the call
fails at once with code DEADLINE_EXCEEDED and no network request is issued;
otherwise the request is issued with armed timeout
`max 250 (min timeout (deadline - now - reserve))` and an abort of the
underlying fetch surfaces as code FETCH_TIMEOUT. -/
theorem C4_fetchWithDeadline_spec (now d t r : ℤ) (outcome : FetchOutcome)
    (hd : d ≠ 0) :
    (d - now - r ≤ 0 →
      fetchWithDeadline now d t r outcome =
        { requested := false, armedTimeoutMs := none,
          result := .error "DEADLINE_EXCEEDED" }) ∧
    (0 < d - now - r →
      (fetchWithDeadline now d t r outcome).requested = true ∧
      (fetchWithDeadline now d t r outcome).armedTimeoutMs =
        some (max 250 (min t (d - now - r))) ∧
      (outcome = .aborted →
        (fetchWithDeadline now d t r outcome).result = .error "FETCH_TIMEOUT")) := by
  have hrem : (deadlineRemainingMs now d).map (fun x => x - r) = some (d - now - r) := by
    simp [deadlineRemainingMs, hd]
  constructor
  · intro h
    simp only [fetchWithDeadline, hrem]
    rw [if_pos h]
  · intro h
    simp only [fetchWithDeadline, hrem]
    rw [if_neg (by omega)]
    refine ⟨rfl, rfl, fun ho => ?_⟩
    subst ho
    rfl

/-- Witness for C4: at `now = 0`, deadline 1000, per-call timeout 9000,
reserve 250, an aborted fetch arms a 750ms timer and reports FETCH_TIMEOUT;
at `now = 500`, deadline 600, the call fails up front as DEADLINE_EXCEEDED. -/
theorem C4_fetchWithDeadline_spec_witness :
    (fetchWithDeadline 0 1000 9000 250 .aborted).requested = true ∧
    (fetchWithDeadline 0 1000 9000 250 .aborted).armedTimeoutMs = some 750 ∧
    (fetchWithDeadline 0 1000 9000 250 .aborted).result = .error "FETCH_TIMEOUT" ∧
    fetchWithDeadline 500 600 9000 250 .success =
      { requested := false, armedTimeoutMs := none,
        result := .error "DEADLINE_EXCEEDED" } := by
  have h1 := (C4_fetchWithDeadline_spec 0 1000 9000 250 .aborted (by decide)).2 (by decide)
  have h2 := (C4_fetchWithDeadline_spec 500 600 9000 250 .success (by decide)).1 (by decide)
  exact ⟨h1.1, by rw [h1.2.1]; decide, h1.2.2 rfl, h2⟩

/-! ### Claim C9: chooseBestExtraction -/

theorem chooseBestStep_mem (b c : Option Extraction) :
    chooseBestStep b c = b ∨ chooseBestStep b c = c := by
  simp only [chooseBestStep]
  split_ifs <;> simp

theorem chooseBestStep_ne_none (b c : Option Extraction) (hb : b ≠ none) :
    chooseBestStep b c ≠ none := by
  simp only [chooseBestStep]
  rw [if_neg hb]
  cases c with
  | none =>
    obtain ⟨x, rfl⟩ := Option.ne_none_iff_exists'.mp hb
    simp [compareExtractionQuality]
  | some y =>
    split_ifs <;> simp [hb]

theorem foldl_chooseBest_ne_none (l : List (Option Extraction))
    (b : Option Extraction) (hb : b ≠ none) :
    l.foldl chooseBestStep b ≠ none := by
  induction l generalizing b with
  | nil => exact hb
  | cons c t ih => exact ih (chooseBestStep b c) (chooseBestStep_ne_none b c hb)

theorem foldl_chooseBest_mem (l : List (Option Extraction)) (b : Option Extraction) :
    l.foldl chooseBestStep b = b ∨ l.foldl chooseBestStep b ∈ l := by
  induction l generalizing b with
  | nil => exact Or.inl rfl
  | cons c t ih =>
    rcases ih (chooseBestStep b c) with h | h
    · rcases chooseBestStep_mem b c with hs | hs
      · exact Or.inl (by rw [List.foldl_cons, h, hs])
      · exact Or.inr (by rw [List.foldl_cons, h, hs]; exact List.mem_cons_self c t)
    · exact Or.inr (List.mem_cons_of_mem c h)

/-- C9: chooseBestExtraction returns null for a non-array input and for an
empty array, and for a non-empty array of non-null extraction results it
returns one of the array's elements (never null, never a synthesized
value). -/
theorem C9_chooseBestExtraction_spec :
    chooseBestExtraction none = none ∧
    chooseBestExtraction (some []) = none ∧
    ∀ l : List (Option Extraction), l ≠ [] → (∀ x ∈ l, x ≠ none) →
      chooseBestExtraction (some l) ∈ l ∧ chooseBestExtraction (some l) ≠ none := by
  refine ⟨rfl, rfl, fun l hl hx => ?_⟩
  cases l with
  | nil => exact absurd rfl hl
  | cons c t =>
    have hstep : chooseBestStep none c = c := by simp [chooseBestStep]
    have hrun : chooseBestExtraction (some (c :: t)) = t.foldl chooseBestStep c := by
      simp [chooseBestExtraction, hstep]
    have hc : c ≠ none := hx c (List.mem_cons_self c t)
    constructor
    · rw [hrun]
      rcases foldl_chooseBest_mem t c with h | h
      · rw [h]; exact List.mem_cons_self c t
      · exact List.mem_cons_of_mem c h
    · rw [hrun]
      exact foldl_chooseBest_ne_none t c hc

/-- Witness for C9: on a concrete three-element array the chosen result is a
member of the array and non-null. -/
theorem C9_chooseBestExtraction_spec_witness :
    chooseBestExtraction
        (some [some ⟨"a", "x", ⟨false, 1500, 1, 1500⟩⟩,
               some ⟨"b", "y", ⟨true, 2800, 1, 5000⟩⟩]) ∈
      [some ⟨"a", "x", ⟨false, 1500, 1, 1500⟩⟩,
       some ⟨"b", "y", ⟨true, 2800, 1, 5000⟩⟩] ∧
    chooseBestExtraction
        (some [some ⟨"a", "x", ⟨false, 1500, 1, 1500⟩⟩,
               some ⟨"b", "y", ⟨true, 2800, 1, 5000⟩⟩]) ≠ none :=
  C9_chooseBestExtraction_spec.2.2 _ (by simp) (by simp)

/-! ### Claim C7: lookupCdxSnapshots -/

/-- C7 (limit half): the limit interpolated into the index request is always
in the range 1..8, for every caller-supplied limit (including NaN, zero,
negative, fractional and oversized values). -/
theorem cdxSafeLimit_bounds (limit : Option ℚ) :
    1 ≤ cdxSafeLimit limit ∧ cdxSafeLimit limit ≤ 8 := by
  have hle : ∀ n : ℚ, 1 ≤ max 1 (min n 8) ∧ max 1 (min n 8) ≤ 8 := fun n =>
    ⟨le_max_left 1 (min n 8), max_le (by norm_num) (min_le_right n 8)⟩
  cases limit with
  | none => exact hle 5
  | some q =>
    simp only [cdxSafeLimit]
    split_ifs <;> exact hle _

/-- C7: lookupCdxSnapshots is a total function (the embedded JS never lets
an exception escape), it requests a limit clamped into 1..8, and whenever it
returns a non-empty snapshot list the upstream interaction was a successful
(`ok`) response whose body parsed to a JSON array with at least two rows —
every other upstream behaviour (network throw, thrown fetch, non-2xx status,
malformed JSON, non-array payload, short array, or a row that would make the
URL builder throw) yields the empty list. -/
theorem C7_lookupCdx_spec (normalize : String → String) (targetUrl : String)
    (limit : Option ℚ) (upstream : CdxUpstream) :
    (1 ≤ cdxSafeLimit limit ∧ cdxSafeLimit limit ≤ 8) ∧
    (lookupCdxSnapshots normalize targetUrl upstream ≠ [] →
      ∃ rows : List Json,
        upstream = .resp true (.ok (.arr rows)) ∧ 2 ≤ rows.length) := by
  refine ⟨cdxSafeLimit_bounds limit, fun h => ?_⟩
  cases upstream with
  | netThrow => exact absurd rfl h
  | resp ok body =>
    cases ok with
    | false => exact absurd rfl h
    | true =>
      cases body with
      | error e => exact absurd rfl h
      | ok data =>
        cases data with
        | arr rows =>
          refine ⟨rows, rfl, ?_⟩
          by_contra hlen
          have hshort : rows.length < 2 := by omega
          rw [lookupCdxSnapshots] at h
          simp only [if_pos hshort] at h
          exact h rfl
        | null => exact absurd rfl h
        | bool b => exact absurd rfl h
        | num q => exact absurd rfl h
        | str s => exact absurd rfl h
        | obj fields => exact absurd rfl h

/-- Witness for C7: a well-formed two-row response (header plus one data
row) produces a non-empty snapshot list, and the theorem then certifies the
upstream shape; the limit bound is instantiated at `limit = 20` (clamped to
8 in the request). -/
theorem C7_lookupCdx_spec_witness :
    (1 ≤ cdxSafeLimit (some 20) ∧ cdxSafeLimit (some 20) ≤ 8) ∧
    ∃ rows : List Json,
      CdxUpstream.resp true (.ok (.arr [.arr [.str "timestamp", .str "original"],
          .arr [.str "20240101000000", .str "https://example.com/"]])) =
        .resp true (.ok (.arr rows)) ∧ 2 ≤ rows.length :=
  ⟨(C7_lookupCdx_spec (fun s => s) "https://example.com/" (some 20)
      (.resp true (.ok (.arr [.arr [.str "timestamp", .str "original"],
        .arr [.str "20240101000000", .str "https://example.com/"]])))).1,
   (C7_lookupCdx_spec (fun s => s) "https://example.com/" (some 20)
      (.resp true (.ok (.arr [.arr [.str "timestamp", .str "original"],
        .arr [.str "20240101000000", .str "https://example.com/"]])))).2
     (by decide)⟩

/-! ### Claim C2: the archive-URL round trip

The claim as stated fails: buildArchiveUrl passes an input that already
starts with the archive replay prefix through unchanged (or merely adjusts
its modifier), and stripWaybackPrefix then removes that prefix, so the round
trip does not return the input.  For all other absolute URLs the round trip
returns `normalizeArchiveTargetUrl` of the input (the WHATWG-normalized
form), which is the input itself exactly when the input is already in
normalized form. -/

theorem stringMk_data (s : String) : String.mk s.data = s := by cases s; rfl

theorem dropLiteral_self (ls rest : List Char) : dropLiteral ls (ls ++ rest) = some rest := by
  induction ls with
  | nil => rfl
  | cons c t ih => simp [dropLiteral, ih]

theorem dropDigits_append (ds rest : List Char) (hdig : ∀ c ∈ ds, c.isDigit = true) :
    dropDigits ds.length (ds ++ rest) = some rest := by
  induction ds with
  | nil => rfl
  | cons c t ih =>
    simp only [List.length_cons, List.cons_append, dropDigits]
    rw [if_pos (hdig c (List.mem_cons_self c t))]
    exact ih (fun d hd => hdig d (List.mem_cons_of_mem c hd))

/-- The strip regex consumes exactly the prefix that buildArchiveUrl lays
down: archive origin, `/web/`, fourteen digits, an optional one- or
two-letter modifier with its underscore, and the closing slash. -/
theorem waybackMatch_built (tsd sufd rest : List Char)
    (hlen : tsd.length = 14) (hdig : ∀ c ∈ tsd, c.isDigit = true)
    (hsuf : sufd = [] ∨ (∃ a, sufd = [a, '_'] ∧ a.isLower = true) ∨
            (∃ a b, sufd = [a, b, '_'] ∧ a.isLower = true ∧ b.isLower = true)) :
    waybackMatchRemainder
      ("https://web.archive.org/web/".data ++ (tsd ++ (sufd ++ '/' :: rest))) = some rest := by
  rw [waybackMatchRemainder, dropLiteral_self]
  show (dropDigits 14 (tsd ++ (sufd ++ '/' :: rest))).bind _ = some rest
  rw [← hlen, dropDigits_append tsd _ hdig]
  show dropUnderscoreSlash (dropAtMostTwoLower (sufd ++ '/' :: rest)) = some rest
  rcases hsuf with rfl | ⟨a, rfl, ha⟩ | ⟨a, b, rfl, ha, hb⟩
  · show dropUnderscoreSlash (dropAtMostTwoLower ('/' :: rest)) = some rest
    simp only [dropAtMostTwoLower]
    rw [if_neg (by decide)]
    rfl
  · show dropUnderscoreSlash (dropAtMostTwoLower (a :: '_' :: '/' :: rest)) = some rest
    simp only [dropAtMostTwoLower]
    rw [if_pos ha, if_neg (by decide)]
    rfl
  · show dropUnderscoreSlash (dropAtMostTwoLower (a :: b :: '_' :: '/' :: rest)) = some rest
    simp only [dropAtMostTwoLower]
    rw [if_pos ha, if_pos hb]
    rfl

/-- C2 counterexample: for the absolute resource URL
`https://web.archive.org/web/20200101000000/https://example.com/`, a 14-digit
timestamp and a null modifier, the round trip returns
`https://example.com/`, not the input (buildArchiveUrl keeps an
already-archived URL unchanged and never consults the normalizer on it, so
the identity normalizer instantiates the external library faithfully
here). -/
theorem C2_roundtrip_counterexample :
    stripWaybackPrefix (buildArchiveUrl (fun s => s)
        "https://web.archive.org/web/20200101000000/https://example.com/"
        "20240101000000" none) =
      "https://example.com/" ∧
    "https://example.com/" ≠
      "https://web.archive.org/web/20200101000000/https://example.com/" := by
  constructor
  · decide
  · decide

/-- C2 (amended): for every absolute resource URL that does not already
start with the archive replay prefix, every 14-digit timestamp, and every
modifier that is null, empty, or one or two lowercase letters, stripping the
archive prefix from the built archive URL yields the normalized form
`normalizeArchiveTargetUrl` of the resource URL — and hence the resource URL
itself whenever normalization fixes it. -/
theorem C2_roundtrip_amended (normalize : String → String) (u ts : String)
    (m : Option String)
    (hu : jsStartsWith u (ARCHIVE_ORIGIN ++ "/web/") = false)
    (hlen : ts.data.length = 14) (hdig : ∀ c ∈ ts.data, c.isDigit = true)
    (hm : m = none ∨ ∃ s, m = some s ∧ s.data.length ≤ 2 ∧
      ∀ c ∈ s.data, c.isLower = true) :
    stripWaybackPrefix (buildArchiveUrl normalize u ts m) = normalize u ∧
    (normalize u = u → stripWaybackPrefix (buildArchiveUrl normalize u ts m) = u) := by
  have hts : ts ≠ "" := by
    intro h
    rw [h] at hlen
    simp at hlen
  have hbuilt : buildArchiveUrl normalize u ts m =
      ARCHIVE_ORIGIN ++ "/web/" ++ ts ++ modifierSuffix m ++ "/" ++ normalize u := by
    simp only [buildArchiveUrl]
    rw [if_neg hts, if_neg (by simp [hu])]
  have harch : ARCHIVE_ORIGIN ++ "/web/" = "https://web.archive.org/web/" := by decide
  have hdata : (buildArchiveUrl normalize u ts m).data =
      "https://web.archive.org/web/".data ++
        (ts.data ++ ((modifierSuffix m).data ++ '/' :: (normalize u).data)) := by
    rw [hbuilt, harch]
    simp [String.data_append, List.append_assoc]
  have hne : buildArchiveUrl normalize u ts m ≠ "" := by
    intro h
    rw [h] at hdata
    have hlen0 := congrArg List.length hdata
    simp [List.length_append] at hlen0
  have hsuf : (modifierSuffix m).data = [] ∨
      (∃ a, (modifierSuffix m).data = [a, '_'] ∧ a.isLower = true) ∨
      (∃ a b, (modifierSuffix m).data = [a, b, '_'] ∧ a.isLower = true ∧
        b.isLower = true) := by
    rcases hm with rfl | ⟨s, rfl, hslen, hslow⟩
    · exact Or.inl rfl
    · by_cases hs0 : s = ""
      · exact Or.inl (by simp [modifierSuffix, hs0])
      · have hsd : s.data ≠ [] := by
          intro h
          exact hs0 (by rw [← stringMk_data s, h])
        have hms : modifierSuffix (some s) = s ++ "_" := by
          simp [modifierSuffix, hs0]
        cases hd : s.data with
        | nil => exact absurd hd hsd
        | cons a l =>
          cases l with
          | nil =>
            refine Or.inr (Or.inl ⟨a, ?_, hslow a (by rw [hd]; exact List.mem_cons_self a [])⟩)
            rw [hms]
            simp [String.data_append, hd]
          | cons b l2 =>
            cases l2 with
            | nil =>
              refine Or.inr (Or.inr ⟨a, b, ?_,
                hslow a (by rw [hd]; exact List.mem_cons_self a [b]),
                hslow b (by rw [hd]; simp)⟩)
              rw [hms]
              simp [String.data_append, hd]
            | cons c l3 =>
              rw [hd] at hslen
              simp at hslen
  have hmain : stripWaybackPrefix (buildArchiveUrl normalize u ts m) = normalize u := by
    rw [stripWaybackPrefix, if_neg hne, hdata,
      waybackMatch_built ts.data _ _ hlen hdig hsuf]
  exact ⟨hmain, fun h => by rw [hmain, h]⟩

/-- Witness for the amended C2 at a concrete already-normalized URL with the
image modifier: the round trip is the identity. -/
theorem C2_roundtrip_amended_witness :
    stripWaybackPrefix (buildArchiveUrl (fun s => s) "https://example.com/a"
        "20240101000000" (some "im")) = "https://example.com/a" :=
  (C2_roundtrip_amended (fun s => s) "https://example.com/a" "20240101000000"
      (some "im") (by decide) (by decide) (by decide)
      (Or.inr ⟨"im", rfl, by decide, by decide⟩)).2 rfl

/-! ### Claim C5: buildTargetUrlVariants

The claim as stated fails on the www-toggle omission condition: the code
(canToggleWww) also refuses hosts without a dot (e.g. `intranet`) and hosts
ending in `.localhost`, which are neither IP literals, nor contain `:`, nor
equal `localhost`. -/

theorem mem_dedupKeepFirst (l : List (Option String)) (seen : List String) (x : String) :
    x ∈ dedupKeepFirst seen l ↔ x ∉ seen ∧ x ≠ "" ∧ some x ∈ l := by
  induction l generalizing seen with
  | nil => simp [dedupKeepFirst]
  | cons c rest ih =>
    cases c with
    | none =>
      rw [dedupKeepFirst, ih]
      simp
    | some s =>
      by_cases hskip : s = "" ∨ s ∈ seen
      · rw [dedupKeepFirst, if_pos hskip, ih]
        constructor
        · rintro ⟨h1, h2, h3⟩
          exact ⟨h1, h2, List.mem_cons_of_mem _ h3⟩
        · rintro ⟨h1, h2, h3⟩
          rcases List.mem_cons.mp h3 with heq | hmem
          · obtain rfl : x = s := Option.some_inj.mp heq
            rcases hskip with h | h
            · exact absurd h h2
            · exact absurd h h1
          · exact ⟨h1, h2, hmem⟩
      · push_neg at hskip
        rw [dedupKeepFirst, if_neg (by tauto)]
        constructor
        · intro hx
          rcases List.mem_cons.mp hx with rfl | hmem
          · exact ⟨hskip.2, hskip.1, List.mem_cons_self _ _⟩
          · obtain ⟨h1, h2, h3⟩ := (ih (s :: seen)).mp hmem
            exact ⟨fun hc => h1 (List.mem_cons_of_mem s hc), h2,
              List.mem_cons_of_mem _ h3⟩
        · rintro ⟨h1, h2, h3⟩
          rcases List.mem_cons.mp h3 with heq | hmem
          · obtain rfl : x = s := Option.some_inj.mp heq
            exact List.mem_cons_self _ _
          · by_cases hxs : x = s
            · subst hxs
              exact List.mem_cons_self _ _
            · refine List.mem_cons_of_mem _ ((ih (s :: seen)).mpr ⟨?_, h2, hmem⟩)
              intro hc
              rcases List.mem_cons.mp hc with h | h
              · exact hxs h
              · exact h1 h

theorem nodup_dedupKeepFirst (l : List (Option String)) (seen : List String) :
    (dedupKeepFirst seen l).Nodup := by
  induction l generalizing seen with
  | nil => exact List.nodup_nil
  | cons c rest ih =>
    cases c with
    | none => exact ih seen
    | some s =>
      by_cases hskip : s = "" ∨ s ∈ seen
      · rw [dedupKeepFirst, if_pos hskip]
        exact ih seen
      · rw [dedupKeepFirst, if_neg hskip]
        refine List.nodup_cons.mpr ⟨fun hc => ?_, ih (s :: seen)⟩
        exact ((mem_dedupKeepFirst rest (s :: seen) s).mp hc).1 (List.mem_cons_self s seen)

theorem sublist_dedupKeepFirst (l : List (Option String)) (seen : List String) :
    List.Sublist (dedupKeepFirst seen l) l.reduceOption := by
  induction l generalizing seen with
  | nil => exact List.Sublist.refl []
  | cons c rest ih =>
    cases c with
    | none =>
      rw [dedupKeepFirst, List.reduceOption_cons_of_none]
      exact ih seen
    | some s =>
      rw [List.reduceOption_cons_of_some]
      by_cases hskip : s = "" ∨ s ∈ seen
      · rw [dedupKeepFirst, if_pos hskip]
        exact List.Sublist.cons s (ih seen)
      · rw [dedupKeepFirst, if_neg hskip]
        exact List.Sublist.cons₂ s (ih (s :: seen))

/-- C5 counterexample: for the valid absolute HTTP URL `http://intranet/x`
(whose host parses to `intranet`, as under WHATWG), the returned variants
contain only the original and its trailing-slash toggle — the www toggle is
omitted even though the host is not an IP literal, contains no `:` and is
not `localhost` (the code additionally requires a dot in the host). -/
theorem C5_variants_counterexample :
    buildTargetUrlVariants simpleUrlOps "http://intranet/x" =
      ["http://intranet/x", "http://intranet/x/"] ∧
    simpleParse "http://intranet/x" = some ⟨"http", "intranet", "/x"⟩ ∧
    canToggleWww "intranet" = false ∧
    wwwToggleOmittedPerClaim "intranet" = false := by
  refine ⟨by decide, by decide, by decide, by decide⟩

/-- C5 (amended): for every nonempty target URL and every behaviour of the
external URL library, buildTargetUrlVariants returns a duplicate-free list
that starts with the input, is an order-preserving subsequence of the five
defined candidates (original, trailing-slash toggle, www toggle, and the two
compositions), and contains exactly the non-empty defined candidate values;
the www toggle is produced exactly when canToggleWww accepts the parsed
hostname (so it is omitted for IP literals, hosts with `:`, `localhost`,
`*.localhost`, and dot-less hosts alike). -/
theorem C5_variants_amended {υ : Type} (M : UrlOps υ) (u : String) (hu : u ≠ "") :
    (buildTargetUrlVariants M u).head? = some u ∧
    (buildTargetUrlVariants M u).Nodup ∧
    List.Sublist (buildTargetUrlVariants M u) ((targetUrlCandidates M u).reduceOption) ∧
    (∀ x, x ∈ buildTargetUrlVariants M u ↔ x ≠ "" ∧ some x ∈ targetUrlCandidates M u) ∧
    (∀ p, M.parse u = some p →
      (toggleWwwForUrl M u = none ↔ canToggleWww (M.hostname p) = false)) := by
  refine ⟨?_, nodup_dedupKeepFirst _ _, sublist_dedupKeepFirst _ _, ?_, ?_⟩
  · show (dedupKeepFirst [] (targetUrlCandidates M u)).head? = some u
    rw [targetUrlCandidates, dedupKeepFirst, if_neg (by simp [hu])]
    rfl
  · intro x
    rw [show buildTargetUrlVariants M u = dedupKeepFirst [] (targetUrlCandidates M u) from rfl,
      mem_dedupKeepFirst]
    simp
  · intro p hp
    simp only [toggleWwwForUrl, hp]
    split_ifs with h
    · simp [h]
    · simpa using h

/-- Witness for the amended C5 on the concrete URL
`https://example.com/a` under the concrete URL model: the head is the
original, the list is duplicate-free, and the www toggle is present since
`example.com` can take the prefix. -/
theorem C5_variants_amended_witness :
    (buildTargetUrlVariants simpleUrlOps "https://example.com/a").head? =
      some "https://example.com/a" ∧
    (buildTargetUrlVariants simpleUrlOps "https://example.com/a").Nodup ∧
    (toggleWwwForUrl simpleUrlOps "https://example.com/a" = none ↔
      canToggleWww (simpleUrlOps.hostname ⟨"https", "example.com", "/a"⟩) = false) := by
  have h := C5_variants_amended simpleUrlOps "https://example.com/a" (by decide)
  exact ⟨h.1, h.2.1, h.2.2.2.2 ⟨"https", "example.com", "/a"⟩ (by decide)⟩

/-! ### Claim C3: compareExtractionQuality is a total preorder

The length-dominance override, the warning comparison, the length
comparison and the coverage comparison are bridged to the explicit relation
`qualityLE`, which is then shown total and transitive by case analysis. -/

theorem ratio_iff (L R : ℕ) (hL : 0 < L) :
    ((1.25 : ℚ) ≤ (R : ℚ) / (L : ℚ)) ↔ 5 * L ≤ 4 * R := by
  have hLq : (0 : ℚ) < (L : ℚ) := by exact_mod_cast hL
  rw [le_div_iff₀ hLq]
  constructor
  · intro h
    have h4 : (5 * L : ℚ) ≤ 4 * R := by nlinarith
    exact_mod_cast h4
  · intro h
    have h4 : (5 * L : ℚ) ≤ 4 * R := by exact_mod_cast h
    nlinarith

theorem override_sorted (L R : ℕ) (h : L ≤ R) :
    (((if 0 < min L R then decide ((1.25 : ℚ) ≤ ((max L R : ℕ) : ℚ) / ((min L R : ℕ) : ℚ))
        else decide (0 < max L R)) = true) ∧ 1200 ≤ max L R - min L R) ↔
      DomLen R L := by
  rw [Nat.max_eq_right h, Nat.min_eq_left h]
  by_cases hL : 0 < L
  · rw [if_pos hL]
    rw [decide_eq_true_iff, ratio_iff L R hL]
    unfold DomLen
    omega
  · rw [if_neg hL]
    rw [decide_eq_true_iff]
    unfold DomLen
    omega

theorem override_cond_iff (L R : ℕ) :
    (((if 0 < min L R then decide ((1.25 : ℚ) ≤ ((max L R : ℕ) : ℚ) / ((min L R : ℕ) : ℚ))
        else decide (0 < max L R)) = true) ∧ 1200 ≤ max L R - min L R) ↔
      (DomLen L R ∨ DomLen R L) := by
  rcases Nat.le_total L R with h | h
  · rw [override_sorted L R h]
    unfold DomLen
    omega
  · rw [min_comm L R, max_comm L R, override_sorted R L h]
    unfold DomLen
    omega
theorem cmp_fields_nonpos_iff (ta ua : String) (wa : Bool) (a : ℕ) (ca : ℚ) (sa : ℕ)
    (tb ub : String) (wb : Bool) (b : ℕ) (cb : ℚ) (sb : ℕ) :
    compareExtractionQuality (some ⟨ta, ua, ⟨wa, a, ca, sa⟩⟩)
        (some ⟨tb, ub, ⟨wb, b, cb, sb⟩⟩) ≤ 0 ↔
      qualityLE a wa ca b wb cb := by
  simp only [compareExtractionQuality]
  by_cases h1 : ((if 0 < min a b then
        decide ((1.25 : ℚ) ≤ ((max a b : ℕ) : ℚ) / ((min a b : ℕ) : ℚ))
      else decide (0 < max a b)) = true) ∧ 1200 ≤ max a b - min a b
  · rw [if_pos h1]
    have hd := (override_cond_iff a b).mp h1
    by_cases hab : DomLen a b
    · apply iff_of_true
      · have hba : b ≤ a := by
          unfold DomLen at hab
          omega
        have hq : (b : ℚ) ≤ (a : ℚ) := by exact_mod_cast hba
        linarith
      · exact Or.inl hab
    · have hba : DomLen b a := hd.resolve_left hab
      apply iff_of_false
      · have hlt : a < b := by
          unfold DomLen at hba
          omega
        have hq : (a : ℚ) < (b : ℚ) := by exact_mod_cast hlt
        intro hc
        linarith
      · rintro (h | ⟨_, hnba, _⟩)
        · exact hab h
        · exact hnba hba
  · rw [if_neg h1]
    have hnd : ¬ (DomLen a b ∨ DomLen b a) := fun hc => h1 ((override_cond_iff a b).mpr hc)
    push_neg at hnd
    by_cases h2 : wa ≠ wb
    · rw [if_pos h2]
      cases wa <;> cases wb
      · exact absurd rfl h2
      · apply iff_of_true
        · norm_num
        · exact Or.inr ⟨hnd.1, hnd.2, Or.inl ⟨rfl, rfl⟩⟩
      · apply iff_of_false
        · norm_num
        · rintro (h | ⟨_, _, (⟨h, _⟩ | ⟨h, _⟩ | ⟨h, _, _⟩)⟩)
          · exact hnd.1 h
          · exact absurd h (by decide)
          · exact absurd h (by decide)
          · exact absurd h (by decide)
      · exact absurd rfl h2
    · rw [if_neg h2]
      push_neg at h2
      by_cases h3 : a ≠ b
      · rw [if_pos h3]
        constructor
        · intro hc
          have hble : (b : ℚ) ≤ (a : ℚ) := by linarith
          have hble' : b ≤ a := by exact_mod_cast hble
          exact Or.inr ⟨hnd.1, hnd.2, Or.inr (Or.inl ⟨h2, by omega⟩)⟩
        · rintro (h | ⟨_, _, (⟨hf, ht⟩ | ⟨_, hlt⟩ | ⟨_, heq, _⟩)⟩)
          · exact absurd h hnd.1
          · rw [hf, ht] at h2
            exact absurd h2 (by decide)
          · have hq : (b : ℚ) < (a : ℚ) := by exact_mod_cast hlt
            linarith
          · exact absurd heq h3
      · rw [if_neg h3]
        push_neg at h3
        by_cases h4 : ca ≠ cb
        · rw [if_pos h4]
          constructor
          · intro hc
            exact Or.inr ⟨hnd.1, hnd.2, Or.inr (Or.inr ⟨h2, h3, by linarith⟩)⟩
          · rintro (h | ⟨_, _, (⟨hf, ht⟩ | ⟨_, hlt⟩ | ⟨_, _, hcle⟩)⟩)
            · exact absurd h hnd.1
            · rw [hf, ht] at h2
              exact absurd h2 (by decide)
            · omega
            · linarith
        · rw [if_neg h4]
          push_neg at h4
          apply iff_of_true
          · exact le_refl 0
          · exact Or.inr ⟨hnd.1, hnd.2, Or.inr (Or.inr ⟨h2, h3, le_of_eq h4.symm⟩)⟩
theorem qualityLE_total (a b : ℕ) (wa wb : Bool) (ca cb : ℚ) :
    qualityLE a wa ca b wb cb ∨ qualityLE b wb cb a wa ca := by
  by_cases hab : DomLen a b
  · exact Or.inl (Or.inl hab)
  · by_cases hba : DomLen b a
    · exact Or.inr (Or.inl hba)
    · cases hwa : wa <;> cases hwb : wb
      · rcases lt_trichotomy a b with h | h | h
        · exact Or.inr (Or.inr ⟨hba, hab, Or.inr (Or.inl ⟨rfl, h⟩)⟩)
        · rcases le_total cb ca with hc | hc
          · exact Or.inl (Or.inr ⟨hab, hba, Or.inr (Or.inr ⟨rfl, h, hc⟩)⟩)
          · exact Or.inr (Or.inr ⟨hba, hab, Or.inr (Or.inr ⟨rfl, h.symm, hc⟩)⟩)
        · exact Or.inl (Or.inr ⟨hab, hba, Or.inr (Or.inl ⟨rfl, h⟩)⟩)
      · exact Or.inl (Or.inr ⟨hab, hba, Or.inl ⟨rfl, rfl⟩⟩)
      · exact Or.inr (Or.inr ⟨hba, hab, Or.inl ⟨rfl, rfl⟩⟩)
      · rcases lt_trichotomy a b with h | h | h
        · exact Or.inr (Or.inr ⟨hba, hab, Or.inr (Or.inl ⟨rfl, h⟩)⟩)
        · rcases le_total cb ca with hc | hc
          · exact Or.inl (Or.inr ⟨hab, hba, Or.inr (Or.inr ⟨rfl, h, hc⟩)⟩)
          · exact Or.inr (Or.inr ⟨hba, hab, Or.inr (Or.inr ⟨rfl, h.symm, hc⟩)⟩)
        · exact Or.inl (Or.inr ⟨hab, hba, Or.inr (Or.inl ⟨rfl, h⟩)⟩)

theorem qualityLE_trans (a b c : ℕ) (wa wb wc : Bool) (ca cb cc : ℚ)
    (h1 : qualityLE a wa ca b wb cb) (h2 : qualityLE b wb cb c wc cc) :
    qualityLE a wa ca c wc cc := by
  rcases h1 with hab | ⟨hnab, hnba, hcase1⟩
  · rcases h2 with hbc | ⟨hnbc, hncb, hcase2⟩
    · exact Or.inl (by unfold DomLen at *; omega)
    · rcases hcase2 with ⟨hwb, hwc⟩ | ⟨hw2, hlt2⟩ | ⟨hw2, heq2, hcov2⟩
      · by_cases hcb : c ≤ b
        · exact Or.inl (by unfold DomLen at *; omega)
        · push_neg at hcb
          have hac : c < a := by
            by_contra hle
            push_neg at hle
            exact hncb (by unfold DomLen at *; omega)
          by_cases hdac : DomLen a c
          · exact Or.inl hdac
          · have hnca : ¬ DomLen c a := by unfold DomLen at *; omega
            cases hwa : wa
            · exact Or.inr ⟨hdac, hnca, Or.inl ⟨rfl, hwc⟩⟩
            · exact Or.inr ⟨hdac, hnca, Or.inr (Or.inl ⟨by rw [hwc], hac⟩)⟩
      · exact Or.inl (by unfold DomLen at *; omega)
      · exact Or.inl (by unfold DomLen at *; omega)
  · rcases h2 with hbc | ⟨hnbc, hncb, hcase2⟩
    · rcases hcase1 with ⟨hwa, hwb⟩ | ⟨hw1, hlt1⟩ | ⟨hw1, heq1, hcov1⟩
      · by_cases hba' : b ≤ a
        · exact Or.inl (by unfold DomLen at *; omega)
        · push_neg at hba'
          have hac : c < a := by
            by_contra hle
            push_neg at hle
            exact hnba (by unfold DomLen at *; omega)
          by_cases hdac : DomLen a c
          · exact Or.inl hdac
          · have hnca : ¬ DomLen c a := by unfold DomLen at *; omega
            cases hwc' : wc
            · exact Or.inr ⟨hdac, hnca, Or.inr (Or.inl ⟨by rw [hwa], hac⟩)⟩
            · exact Or.inr ⟨hdac, hnca, Or.inl ⟨hwa, rfl⟩⟩
      · exact Or.inl (by unfold DomLen at *; omega)
      · exact Or.inl (by unfold DomLen at *; omega)
    · rcases hcase1 with ⟨hwa, hwb⟩ | ⟨hw1, hlt1⟩ | ⟨hw1, heq1, hcov1⟩ <;>
        rcases hcase2 with ⟨hwb', hwc⟩ | ⟨hw2, hlt2⟩ | ⟨hw2, heq2, hcov2⟩
      · rw [hwb] at hwb'
        exact absurd hwb' (by decide)
      · have hnca : ¬ DomLen c a := by unfold DomLen at *; omega
        by_cases hdac : DomLen a c
        · exact Or.inl hdac
        · exact Or.inr ⟨hdac, hnca, Or.inl ⟨hwa, by rw [← hw2, hwb]⟩⟩
      · have hnca : ¬ DomLen c a := by unfold DomLen at *; omega
        by_cases hdac : DomLen a c
        · exact Or.inl hdac
        · exact Or.inr ⟨hdac, hnca, Or.inl ⟨hwa, by rw [← hw2, hwb]⟩⟩
      · have hnca : ¬ DomLen c a := by unfold DomLen at *; omega
        by_cases hdac : DomLen a c
        · exact Or.inl hdac
        · exact Or.inr ⟨hdac, hnca, Or.inl ⟨by rw [hw1, hwb'], hwc⟩⟩
      · have hnca : ¬ DomLen c a := by unfold DomLen at *; omega
        by_cases hdac : DomLen a c
        · exact Or.inl hdac
        · exact Or.inr ⟨hdac, hnca, Or.inr (Or.inl ⟨hw1.trans hw2, by omega⟩)⟩
      · have hnca : ¬ DomLen c a := by unfold DomLen at *; omega
        have hnac : ¬ DomLen a c := by unfold DomLen at *; omega
        exact Or.inr ⟨hnac, hnca, Or.inr (Or.inl ⟨hw1.trans hw2, by omega⟩)⟩
      · have hnca : ¬ DomLen c a := by unfold DomLen at *; omega
        have hnac : ¬ DomLen a c := by unfold DomLen at *; omega
        exact Or.inr ⟨hnac, hnca, Or.inl ⟨by rw [hw1, hwb'], hwc⟩⟩
      · have hnca : ¬ DomLen c a := by unfold DomLen at *; omega
        have hnac : ¬ DomLen a c := by unfold DomLen at *; omega
        exact Or.inr ⟨hnac, hnca, Or.inr (Or.inl ⟨hw1.trans hw2, by omega⟩)⟩
      · have hnca : ¬ DomLen c a := by unfold DomLen at *; omega
        have hnac : ¬ DomLen a c := by unfold DomLen at *; omega
        exact Or.inr ⟨hnac, hnca, Or.inr (Or.inr ⟨hw1.trans hw2, by omega, by linarith⟩)⟩
theorem cmp_nonpos_iff (l r : Extraction) :
    compareExtractionQuality (some l) (some r) ≤ 0 ↔
      qualityLE l.quality.extractedTextLength l.quality.hasWarning l.quality.coverage
        r.quality.extractedTextLength r.quality.hasWarning r.quality.coverage := by
  obtain ⟨ta, ua, qa⟩ := l
  obtain ⟨wa, a, ca, sa⟩ := qa
  obtain ⟨tb, ub, qb⟩ := r
  obtain ⟨wb, b, cb, sb⟩ := qb
  exact cmp_fields_nonpos_iff ta ua wa a ca sa tb ub wb b cb sb

theorem C3_compare_total_preorder (A B C : Option Extraction) :
    (compareExtractionQuality A B ≤ 0 ∨ compareExtractionQuality B A ≤ 0) ∧
    (compareExtractionQuality A B ≤ 0 → compareExtractionQuality B C ≤ 0 →
      compareExtractionQuality A C ≤ 0) := by
  constructor
  · cases A with
    | none =>
      cases B with
      | none => exact Or.inl (le_refl 0)
      | some y => exact Or.inr (by norm_num [compareExtractionQuality])
    | some x =>
      cases B with
      | none => exact Or.inl (by norm_num [compareExtractionQuality])
      | some y =>
        rw [cmp_nonpos_iff, cmp_nonpos_iff]
        exact qualityLE_total _ _ _ _ _ _
  · intro h1 h2
    cases A with
    | none =>
      cases B with
      | none =>
        cases C with
        | none => exact le_refl 0
        | some z => exact absurd h2 (by norm_num [compareExtractionQuality])
      | some y => exact absurd h1 (by norm_num [compareExtractionQuality])
    | some x =>
      cases C with
      | none => norm_num [compareExtractionQuality]
      | some z =>
        cases B with
        | none => exact absurd h2 (by norm_num [compareExtractionQuality])
        | some y =>
          rw [cmp_nonpos_iff] at h1 h2 ⊢
          exact qualityLE_trans _ _ _ _ _ _ _ _ _ h1 h2

theorem C3_compare_total_preorder_witness :
    compareExtractionQuality (some ⟨"long", "x", ⟨false, 3000, 1, 3000⟩⟩)
        (some ⟨"mid", "y", ⟨false, 1500, 1, 1500⟩⟩) ≤ 0 ∧
    compareExtractionQuality (some ⟨"mid", "y", ⟨false, 1500, 1, 1500⟩⟩)
        (some ⟨"none", "z", ⟨true, 100, 0, 4000⟩⟩) ≤ 0 ∧
    compareExtractionQuality (some ⟨"long", "x", ⟨false, 3000, 1, 3000⟩⟩)
        (some ⟨"none", "z", ⟨true, 100, 0, 4000⟩⟩) ≤ 0 :=
  have h1 : compareExtractionQuality (some ⟨"long", "x", ⟨false, 3000, 1, 3000⟩⟩)
      (some ⟨"mid", "y", ⟨false, 1500, 1, 1500⟩⟩) ≤ 0 := by
    norm_num [compareExtractionQuality]
  have h2 : compareExtractionQuality (some ⟨"mid", "y", ⟨false, 1500, 1, 1500⟩⟩)
      (some ⟨"none", "z", ⟨true, 100, 0, 4000⟩⟩) ≤ 0 := by
    norm_num [compareExtractionQuality]
  ⟨h1, h2,
    (C3_compare_total_preorder (some ⟨"long", "x", ⟨false, 3000, 1, 3000⟩⟩)
        (some ⟨"mid", "y", ⟨false, 1500, 1, 1500⟩⟩)
        (some ⟨"none", "z", ⟨true, 100, 0, 4000⟩⟩)).2 h1 h2⟩

end WebArchive
